import Mathlib

/-
Verification of the ObsFind indexing and search pipeline.

This file gives a shallow embedding, in Lean 4, of the core pure logic of
the ObsFind daemon (a semantic-search engine for Markdown vaults written in
Go), and proves properties of that logic.

Modelling conventions used throughout:
  - Go strings are modelled as Lean `String` (for simple prefix and
    concatenation logic) or as `List Char` (for the byte-level Markdown
    scanner).  All inputs exercised here are ASCII, for which the
    character-level model and Go's byte-level model coincide.
  - Go `int` values that are only ever non-negative (lengths, counters,
    indices) are modelled as `Nat`; Go's truncated integer division on
    non-negative values is `Nat` division.
  - Go functions returning `(T, error)` are modelled as `Except String T`
    (or `Except Unit T` when the error payload is irrelevant).
  - Loops are modelled as structural recursion; where Go iterates with a
    cursor, the Lean function takes an explicit fuel argument that the
    callers instantiate large enough to cover the whole input, so that
    every definition reduces inside the kernel.
  - Calls to external services (the Ollama embedding provider, the Qdrant
    vector store) are modelled as function parameters, so theorems can
    quantify over every behaviour of the remote side.
-/

namespace ObsFind

/-! ## Indexer: vault attribution (pkg/indexer/indexer.go, findBaseVaultPath) -/

/-- Model of Go's strings.HasPrefix: the first string's characters start
the second's.  Phrased over the character lists so that it evaluates by
kernel reduction. -/
def goHasPrefix (pre s : String) : Bool := pre.data.isPrefixOf s.data

namespace Indexer

/-- Loop body of findBaseVaultPath's best-match scan: walk the configured
vault paths, keeping the longest one that is a string prefix of the file
path (Go: strings.HasPrefix(path, vaultPath) with len(vaultPath) > bestMatchLen). -/
def bestPrefixScan (path : String) : List String → String × Nat → String × Nat
  | [], acc => acc
  | v :: rest, (best, bestLen) =>
    if goHasPrefix v path then
      if bestLen < v.length then bestPrefixScan path rest (v, v.length)
      else bestPrefixScan path rest (best, bestLen)
    else bestPrefixScan path rest (best, bestLen)

/-- Embedding of Service.findBaseVaultPath (indexer.go lines 210-245): with a
single configured vault return it unconditionally; otherwise return the
longest vault path that prefixes the file path, falling back to the first
configured vault, and to the empty string when none are configured. -/
def findBaseVaultPath (vaultPaths : List String) (path : String) : String :=
  if vaultPaths.length = 1 then vaultPaths.headD ""
  else
    let best := bestPrefixScan path vaultPaths ("", 0)
    if best.1 ≠ "" then best.1
    else
      match vaultPaths with
      | [] => ""
      | v :: _ => v

end Indexer

/-! ## Embedder: dynamic request timeout (unnamed/part_007, OllamaEmbedder) -/

namespace Model

/-- Embedding of the dynamic-timeout computation shared by
OllamaEmbedder.Embed (lines 63-69) and OllamaEmbedder.EmbedBatch (lines
133-140): the base timeout, plus ((L-5000)/5000 + 1) seconds when the
relevant text length L exceeds 5000 (Go integer division). -/
def dynamicTimeoutSec (baseSec textLen : Nat) : Nat :=
  if textLen > 5000 then
    let additionalSec := (textLen - 5000) / 5000 + 1
    baseSec + additionalSec
  else baseSec

/-- Embedding of the longest-text scan at the top of
OllamaEmbedder.EmbedBatch (lines 126-131): a fold keeping the largest
length seen so far, starting from zero. -/
def longestTextLen (texts : List String) : Nat :=
  texts.foldl (fun longest t => if t.length > longest then t.length else longest) 0

/-- Per-request timeout used by every sub-batch request inside
OllamaEmbedder.EmbedBatch: the dynamic timeout of the longest text of the
whole input list. -/
def embedBatchTimeoutSec (baseSec : Nat) (texts : List String) : Nat :=
  dynamicTimeoutSec baseSec (longestTextLen texts)

/-- Timeout formula as the claim states it: base plus the ceiling of
(longest length / 5000) seconds.  Written from the specification text, to
be compared against the code's dynamicTimeoutSec. -/
def specClaimTimeoutSec (baseSec textLen : Nat) : Nat :=
  baseSec + (textLen + 4999) / 5000

end Model

/-! ## Indexer: full-reindex statistics (pkg/indexer/indexer.go, IndexVault) -/

namespace Indexer

/-- Statistics fields tracked by the indexer service (indexer.go Stats),
restricted to the counters and status the run manipulates. -/
structure Stats where
  totalDocuments : Nat
  indexedDocuments : Nat
  failedDocuments : Nat
  status : String
  deriving Repr, DecidableEq

/-- State change performed by IndexVault when a run is admitted
(indexer.go lines 107-112): the status becomes "indexing"; the document
counters are left untouched. -/
def indexVaultStart (st : Stats) : Stats :=
  { st with status := "indexing" }

/-- Per-file step of the IndexVault walk (indexer.go lines 149-180): the
total counter advances first, then exactly one of the indexed or failed
counters according to the outcome of indexFile. -/
def indexVaultStep (st : Stats) (indexedOk : Bool) : Stats :=
  let st1 := { st with totalDocuments := st.totalDocuments + 1 }
  if indexedOk then { st1 with indexedDocuments := st1.indexedDocuments + 1 }
  else { st1 with failedDocuments := st1.failedDocuments + 1 }

/-- The walk over all markdown files of all vaults, as the fold of the
per-file step over the per-file outcomes. -/
def indexVaultRun (st : Stats) (outcomes : List Bool) : Stats :=
  outcomes.foldl indexVaultStep st

/-- Deferred completion of IndexVault (indexer.go lines 114-123): the
status becomes "error" when any document failed, else "idle". -/
def indexVaultFinish (st : Stats) : Stats :=
  if st.failedDocuments > 0 then { st with status := "error" }
  else { st with status := "idle" }

end Indexer

/-! ## API: reindex-all endpoint (pkg/api/service.go ReindexAll, unnamed/part_005 handleIndexAll) -/

namespace Api

/-- Embedding of Service.ReindexAll (service.go lines 512-529), given the
observable state it branches on: whether an indexer is configured and
whether the indexer reports a run in progress.  On success the background
run is spawned and nil is returned. -/
def reindexAll (indexerPresent isIndexing : Bool) : Except String Unit :=
  if !indexerPresent then Except.error "no indexer configured"
  else if isIndexing then Except.error "indexing is already in progress"
  else Except.ok ()

/-- Minimal HTTP response: status code and the body's message content.  The
JSON envelopes are elided: an error response carries its message string, a
success response its status string. -/
structure HttpResponse where
  status : Nat
  body : String
  deriving Repr, DecidableEq

/-- Embedding of handleIndexAll (unnamed/part_005 lines 332-365) after
method check and body parsing succeeded: any error from ReindexAll is
written with http.StatusInternalServerError (500); otherwise the response
is 200 with status "reindexing_started". -/
def handleIndexAll (indexerPresent isIndexing : Bool) : HttpResponse :=
  match reindexAll indexerPresent isIndexing with
  | Except.error e => { status := 500, body := "Reindexing failed: " ++ e }
  | Except.ok _ => { status := 200, body := "reindexing_started" }

end Api

/-! ## Markdown data model and sliding-window chunker (pkg/markdown/parser.go) -/

namespace Markdown

/-- Character-list representation of a Go string (ASCII model). -/
abbrev Str := List Char

/-- Whitespace in the sense of Go's unicode.IsSpace, as used by
strings.TrimSpace (Latin-1 range). -/
def goIsUnicodeSpace (c : Char) : Bool :=
  c = ' ' || c = '\t' || c = '\n' || c = '\x0b' || c = '\x0c' || c = '\r' ||
    c = '\x85' || c = '\xa0'

/-- Model of strings.TrimSpace: drop leading and trailing whitespace. -/
def goTrimSpace (s : Str) : Str :=
  ((s.dropWhile goIsUnicodeSpace).reverse.dropWhile goIsUnicodeSpace).reverse

/-- Index of the first occurrence of sep in s, if any. -/
def findSub : Str → Str → Option Nat
  | [], sep => if sep.isEmpty then some 0 else none
  | c :: rest, sep =>
    if sep.isPrefixOf (c :: rest) then some 0
    else (findSub rest sep).map (· + 1)

/-- Model of strings.Split with a non-empty separator: cut around each
leftmost non-overlapping occurrence.  The fuel argument (instantiated with
the input length plus one by callers) makes the recursion structural. -/
def goSplitSep (sep : Str) : Nat → Str → List Str
  | 0, s => [s]
  | fuel+1, s =>
    match findSub s sep with
    | none => [s]
    | some i => s.take i :: goSplitSep sep fuel (s.drop (i + sep.length))

/-- Frontmatter values: a plain string, or the list of strings a bracketed
tags entry parses to. -/
inductive FMValue where
  | str : Str → FMValue
  | list : List Str → FMValue
  deriving Repr, DecidableEq

/-- Section of a parsed document (markdown.Section). -/
structure Section where
  title : Str := []
  level : Nat := 0
  content : Str := []
  startLine : Nat := 0
  endLine : Nat := 0
  startOffset : Nat := 0
  endOffset : Nat := 0
  deriving Repr, DecidableEq

/-- Parsed document (markdown.Document).  The frontmatter map is modelled
as an insertion-ordered association list; None models Go's nil map. -/
structure Document where
  title : Str := []
  path : Str := []
  content : Str := []
  frontmatter : Option (List (Str × FMValue)) := none
  sections : List Section := []
  tags : List Str := []
  deriving Repr, DecidableEq

/-- Chunk of text for embedding (markdown.Chunk).  The Go field Section is
called sectionTitle here. -/
structure Chunk where
  id : Str := []
  content : Str := []
  contentOnly : Str := []
  title : Str := []
  sectionTitle : Str := []
  sectionPath : Str := []
  tags : List Str := []
  path : Str := []
  startLine : Nat := 0
  endLine : Nat := 0
  startOffset : Nat := 0
  endOffset : Nat := 0
  deriving Repr, DecidableEq

/-- Accumulator of the sliding-window loop: the pending paragraph buffer
(Go keeps the builder and its size separately; both are mirrored), the
running chunk index, and the chunks emitted so far. -/
structure SWState where
  currentChunk : Str := []
  currentSize : Nat := 0
  chunkIndex : Nat := 0
  chunks : List Chunk := []
  deriving Repr, DecidableEq

/-- Chunk built by ChunkBySlidingWindow: id "path:chunk_i", content and
contentOnly from the buffer, title, tags and path from the document; no
section or range information is set. -/
def swEmit (doc : Document) (st : SWState) : Chunk :=
  { id := doc.path ++ (":chunk_" ++ Nat.repr st.chunkIndex).data
    content := st.currentChunk
    contentOnly := st.currentChunk
    title := doc.title
    tags := doc.tags
    path := doc.path }

/-- Chunk built by slidingWindowChunking: as swEmit but the ContentOnly
field is left at its zero value (the Go struct literal omits it). -/
def swEmitStrategy (doc : Document) (st : SWState) : Chunk :=
  { id := doc.path ++ (":chunk_" ++ Nat.repr st.chunkIndex).data
    content := st.currentChunk
    title := doc.title
    tags := doc.tags
    path := doc.path }

/-- Loop body shared by ChunkBySlidingWindow (parser.go lines 209-258) and
slidingWindowChunking (lines 591-641).  maxSize is the size threshold
(windowSize / options.MaxChunkSize); emitMin is the second operand of the
emission condition (windowSize - overlap in the former, options.MinChunkSize
in the latter).  A paragraph that trims to empty is skipped entirely,
including the end-of-input emission check. -/
def swStep (emit : Document → SWState → Chunk) (doc : Document)
    (maxSize emitMin : Nat) (isLast : Bool) (st : SWState) (par : Str) : SWState :=
  let paragraph := goTrimSpace par
  if paragraph = [] then st
  else
    let paragraphSize := paragraph.length
    let st1 :=
      if st.currentSize + paragraphSize > maxSize ∧ st.currentSize ≥ emitMin then
        { currentChunk := []
          currentSize := 0
          chunkIndex := st.chunkIndex + 1
          chunks := st.chunks ++ [emit doc st] }
      else st
    let st2 :=
      if st1.currentSize > 0 then
        { st1 with
            currentChunk := st1.currentChunk ++ ['\n', '\n']
            currentSize := st1.currentSize + 2 }
      else st1
    let st3 :=
      { st2 with
          currentChunk := st2.currentChunk ++ paragraph
          currentSize := st2.currentSize + paragraphSize }
    if isLast ∧ st3.currentSize > 0 then
      { st3 with chunks := st3.chunks ++ [emit doc st3] }
    else st3

/-- Iteration over the paragraph list; the final element carries the
is-last flag that drives the end-of-input emission check. -/
def swLoop (emit : Document → SWState → Chunk) (doc : Document)
    (maxSize emitMin : Nat) : SWState → List Str → SWState
  | st, [] => st
  | st, [p] => swStep emit doc maxSize emitMin true st p
  | st, p :: rest =>
    swLoop emit doc maxSize emitMin (swStep emit doc maxSize emitMin false st p) rest

/-- Final state of the sliding-window pass over a document: split the
content on blank lines and run the loop from the empty state. -/
def swFinalState (emit : Document → SWState → Chunk) (doc : Document)
    (maxSize emitMin : Nat) : SWState :=
  let text := doc.content
  let paragraphs := goSplitSep ['\n', '\n'] (text.length + 1) text
  swLoop emit doc maxSize emitMin {} paragraphs

/-- Embedding of Parser.ChunkBySlidingWindow (parser.go lines 195-261):
emission threshold windowSize with floor windowSize - overlap.  Go
computes windowSize - overlap in int; when overlap exceeds windowSize the
Go value is negative and currentSize >= it always holds, exactly as the
truncated Nat subtraction (zero) makes the comparison always hold here. -/
def chunkBySlidingWindow (doc : Document) (windowSize overlap : Nat) : List Chunk :=
  (swFinalState swEmit doc windowSize (windowSize - overlap)).chunks

/-- Chunking options (markdown.ChunkOptions). -/
structure ChunkOptions where
  strategy : Str := []
  maxChunkSize : Nat := 0
  minChunkSize : Nat := 0
  chunkOverlap : Nat := 0
  includeSectionTitle : Bool := false
  includeDocTitle : Bool := false
  deriving Repr, DecidableEq

/-- Embedding of slidingWindowChunking (parser.go lines 577-644): emission
threshold options.MaxChunkSize with floor options.MinChunkSize. -/
def slidingWindowChunking (doc : Document) (options : ChunkOptions) : List Chunk :=
  (swFinalState swEmitStrategy doc options.maxChunkSize options.minChunkSize).chunks

end Markdown

/-! ## Embedder batching and caching (unnamed/part_007 OllamaEmbedder.EmbedBatch,
pkg/model/embedder.go CachedEmbedder.EmbedBatch) -/

namespace Model

/-- Embedding of the per-batch retry loop of OllamaEmbedder.EmbedBatch
(lines 154-183).  The provider function models client.CreateEmbedding and
may behave differently on each attempt; V is the vector type.  The loop
breaks as soon as a call returns without error and with exactly one vector
per batch entry; otherwise the last call's embeddings and error flow out of
the loop unchanged (in particular, an error-free short response on the
final attempt is passed through).  The second Nat is the number of
remaining attempts; with zero attempts Go's loop body never runs and the
nil embeddings with nil error flow out. -/
def ollamaRetry {V : Type} (provider : List String → Nat → Except Unit (List V))
    (batch : List String) : Nat → Nat → Except Unit (List V)
  | _, 0 => Except.ok []
  | attempt, 1 => provider batch attempt
  | attempt, fuel+2 =>
    match provider batch attempt with
    | Except.ok vs =>
      if vs.length = batch.length then Except.ok vs
      else ollamaRetry provider batch (attempt+1) (fuel+1)
    | Except.error _ => ollamaRetry provider batch (attempt+1) (fuel+1)

/-- Slicing of the input into sub-batches of batchSize (EmbedBatch lines
142-148: for i := 0; i < len(texts); i += e.batchSize).  Fuel-driven; the
caller passes the input length, which suffices whenever batchSize ≥ 1. -/
def ollamaBatches (batchSize : Nat) : Nat → List String → List (List String)
  | 0, _ => []
  | _, [] => []
  | fuel+1, t :: ts =>
    (t :: ts).take batchSize :: ollamaBatches batchSize fuel ((t :: ts).drop batchSize)

/-- Sequential processing of the sub-batches, appending each batch's
embeddings to the accumulator and returning the first batch error
(EmbedBatch lines 142-190). -/
def ollamaProcessBatches {V : Type} (provider : List String → Nat → Except Unit (List V))
    (maxAttempts : Nat) (acc : List V) : List (List String) → Except Unit (List V)
  | [] => Except.ok acc
  | batch :: rest =>
    match ollamaRetry provider batch 0 maxAttempts with
    | Except.error e => Except.error e
    | Except.ok embeddings => ollamaProcessBatches provider maxAttempts (acc ++ embeddings) rest

/-- Embedding of OllamaEmbedder.EmbedBatch (lines 116-193): empty input
returns the empty list; otherwise the input is sliced into sub-batches that
are embedded sequentially with retries. -/
def ollamaEmbedBatch {V : Type} (batchSize maxAttempts : Nat)
    (provider : List String → Nat → Except Unit (List V)) (texts : List String) :
    Except Unit (List V) :=
  if texts.isEmpty then Except.ok []
  else ollamaProcessBatches provider maxAttempts [] (ollamaBatches batchSize texts.length texts)

/-- First pass of CachedEmbedder.EmbedBatch (embedder.go lines 162-179):
walk the texts with their absolute indices, filling the results slice with
cache hits and collecting the uncached texts and their indices in order. -/
def cachedPartition {V : Type} (cacheGet : String → Option V) :
    List String → Nat → List (Option V) × List String × List Nat
  | [], _ => ([], [], [])
  | t :: rest, i =>
    let r := cachedPartition cacheGet rest (i+1)
    match cacheGet t with
    | some v => (some v :: r.1, r.2.1, r.2.2)
    | none => (none :: r.1, t :: r.2.1, i :: r.2.2)

/-- Second pass of CachedEmbedder.EmbedBatch (lines 188-202): write each
returned embedding into the results slice at its recorded index.  Go
iterates the embeddings and indexes uncachedIndices[i]; the zip models the
in-range behaviour (a response longer than the request would panic in Go,
which no claim here exercises). -/
def applyEmbeddings {V : Type} (results : List (Option V)) (pairs : List (V × Nat)) :
    List (Option V) :=
  pairs.foldl (fun acc p => acc.set p.2 (some p.1)) results

/-- Embedding of CachedEmbedder.EmbedBatch (embedder.go lines 160-205).
Entries of the result are Options because Go's results slice starts as nil
entries and an entry stays nil when the inner embedder returns fewer
vectors than requested. -/
def cachedEmbedBatch {V : Type} (cacheGet : String → Option V)
    (inner : List String → Except Unit (List V)) (texts : List String) :
    Except Unit (List (Option V)) :=
  let part := cachedPartition cacheGet texts 0
  if part.2.1.length > 0 then
    match inner part.2.1 with
    | Except.error e => Except.error e
    | Except.ok embeddings =>
      Except.ok (applyEmbeddings part.1 (embeddings.zip part.2.2))
  else Except.ok part.1

/-- Remote provider that always answers with an empty vector list and no
error; used to exhibit a short error-free response. -/
def shortResponseProvider : List String → Nat → Except Unit (List (List Nat)) :=
  fun _ _ => Except.ok []

end Model

/-! ## Query service: text search filter pipeline (pkg/indexer/search.go) -/

namespace Indexer

/-- Search options (indexer.SearchOptions).  Scores are modelled in an
ordered numeric type (Int); only comparisons of scores are observable in
the filter pipeline. -/
structure SearchOptions where
  limit : Nat := 10
  offset : Nat := 0
  minScore : Int := 0
  tags : List String := []
  pathPrefix : String := ""
  deriving Repr, DecidableEq

/-- A scored point as returned by the vector store, with the payload
fields that Service.Search extracts from it (via GetPayloadString and
friends, which default to zero values for missing fields). -/
structure ScoredPoint where
  score : Int := 0
  payloadPath : String := ""
  payloadContent : String := ""
  payloadTitle : String := ""
  payloadSection : String := ""
  payloadTags : List String := []
  payloadChunkIndex : Int := 0
  deriving Repr, DecidableEq

/-- Search result (indexer.SearchResult); the Go field Section is called
sectionTitle here. -/
structure SearchResult where
  path : String := ""
  sectionTitle : String := ""
  title : String := ""
  content : String := ""
  tags : List String := []
  score : Int := 0
  chunkIndex : Int := 0
  deriving Repr, DecidableEq

/-- The tag-match double loop of Service.Search (search.go lines 107-123):
some requested tag equals some document tag. -/
def tagsMatched (optTags docTags : List String) : Bool :=
  optTags.any (fun tag => docTags.any (fun docTag => tag == docTag))

/-- Loop body of Service.Search's result conversion (search.go lines
85-138): drop the point when its score is below a positive minScore, when a
non-empty pathPrefix does not prefix its path, or when a non-empty tag list
does not intersect its tags; otherwise build the result from the extracted
payload fields. -/
def searchConvert (options : SearchOptions) (point : ScoredPoint) : Option SearchResult :=
  if 0 < options.minScore ∧ point.score < options.minScore then none
  else if options.pathPrefix ≠ "" ∧
      ¬ (ObsFind.goHasPrefix options.pathPrefix point.payloadPath = true) then none
  else if options.tags ≠ [] ∧ ¬ (tagsMatched options.tags point.payloadTags = true) then none
  else some
    { path := point.payloadPath
      sectionTitle := point.payloadSection
      title := point.payloadTitle
      content := point.payloadContent
      tags := point.payloadTags
      score := point.score
      chunkIndex := point.payloadChunkIndex }

/-- Comparator of the final sort.Slice call (search.go lines 141-143):
results[i].Score > results[j].Score orders by score descending; as a
non-strict Bool relation for sorting, a stands before b when b's score does
not exceed a's. -/
def scoreDescLe (a b : SearchResult) : Bool := b.score ≤ a.score

/-- Insertion of an element into a sorted list (used to model the effect
of sort.Slice: Go's sort is unstable, so any order among equal scores is a
faithful reading; the sorted output is what the code guarantees). -/
def insertSortedBy {α : Type} (le : α → α → Bool) (x : α) : List α → List α
  | [] => [x]
  | y :: ys => if le x y then x :: y :: ys else y :: insertSortedBy le x ys

/-- Insertion sort by the given relation. -/
def sortBy {α : Type} (le : α → α → Bool) : List α → List α
  | [] => []
  | x :: xs => insertSortedBy le x (sortBy le xs)

/-- Embedding of the pure tail of Service.Search (search.go lines 84-145),
given the scored points the vector store returned for the query embedding:
convert and filter each point in order, then sort by score descending. -/
def searchResults (options : SearchOptions) (points : List ScoredPoint) :
    List SearchResult :=
  sortBy scoreDescLe (points.filterMap (searchConvert options))

end Indexer

/-! ## Markdown parse phase: sections, frontmatter, inline tags
(pkg/markdown/parser.go).

The Go code matches three regular expressions with Go's regexp package
(leftmost-first semantics).  Each is specialised here into an equivalent
deterministic scanner; the derivations are spelled out at each definition.  -/

namespace Markdown

/-- Whitespace class of RE2's ASCII \\s: tab, newline, form feed, carriage
return, space. -/
def isRegexSpace (c : Char) : Bool :=
  c = '\t' || c = '\n' || c = '\x0c' || c = '\r' || c = ' '

/-- First index at or after i whose character is missing (end of string) or
fails the predicate.  Fuel-driven (callers pass length + 1). -/
def scanWhile (s : Str) (p : Char → Bool) : Nat → Nat → Nat
  | 0, i => i
  | fuel+1, i =>
    match s.get? i with
    | some c => if p c then scanWhile s p fuel (i+1) else i
    | none => i

/-- Largest index j with lo ≤ j ≤ the given start, whose character exists
and is not a newline; searched downward.  This is the greedy backtracking
of a \\s+(.+)$ tail: the one-or-more whitespace group ends where the .+
group starts, and the .+ group must open with a character other than a
newline. -/
def searchTitleStart (s : Str) (lo : Nat) : Nat → Nat → Option Nat
  | 0, _ => none
  | fuel+1, j =>
    if j < lo then none
    else
      match s.get? j with
      | some c =>
        if c ≠ '\n' then some j
        else if j = 0 then none else searchTitleStart s lo fuel (j-1)
      | none => if j = 0 then none else searchTitleStart s lo fuel (j-1)

/-- Submatch indices of one heading match: overall span [mStart, mEnd),
hash count, and title group span [titleStart, titleEnd). -/
structure HeaderMatch where
  mStart : Nat
  mEnd : Nat
  level : Nat
  titleStart : Nat
  titleEnd : Nat
  deriving Repr, DecidableEq

/-- Match of parseSections' header pattern, (?m)^(#{1,6})\\s+(.+)$, at
line-start position p.  Derivation from leftmost-first semantics: the hash
group can only succeed with the full run of hashes at p (a shorter greedy
choice leaves a hash where whitespace is required), and only when that run
has one to six hashes; then \\s+(.+)$ matches exactly when some position
after at least one whitespace character holds a character other than a
newline, the greedy choice being the largest such position within the
whitespace run (the character right after a maximal run, being
non-whitespace, is never a newline, so the run end is preferred when it is
in range); the title then extends to the next newline or the end of input,
where $ holds under (?m). -/
def hashRunEnd (s : Str) (p : Nat) : Nat :=
  scanWhile s (fun c => c = '#') (s.length + 1) p

/-- Start of the title group when the \\s+(.+)$ tail matches after the
hash run ending at hashEnd: the largest in-range position after at least
one whitespace character that holds a character other than a newline. -/
def headingTitleStart (s : Str) (hashEnd : Nat) : Option Nat :=
  searchTitleStart s (hashEnd + 1) (s.length + 1)
    (min (scanWhile s isRegexSpace (s.length + 1) hashEnd) (s.length - 1))

/-- End of the title group: the greedy .+ run from the title start to the
next newline or the end of input, where $ holds under (?m). -/
def headingTitleEnd (s : Str) (ts : Nat) : Nat :=
  scanWhile s (fun c => ¬ (c = '\n')) (s.length + 1) ts

def tryHeaderMatch (s : Str) (p : Nat) : Option HeaderMatch :=
  if 1 ≤ hashRunEnd s p - p ∧ hashRunEnd s p - p ≤ 6 then
    match headingTitleStart s (hashRunEnd s p) with
    | some ts =>
      some { mStart := p
             mEnd := headingTitleEnd s ts
             level := hashRunEnd s p - p
             titleStart := ts
             titleEnd := headingTitleEnd s ts }
    | none => none
  else none

/-- A (?m) caret position: the start of the input or just after a
newline. -/
def isLineStart (s : Str) (i : Nat) : Bool :=
  i = 0 ||
    (match s.get? (i - 1) with
     | some c => c = '\n'
     | none => false)

/-- FindAllSubmatchIndex scan for the heading pattern: leftmost match at or
after the cursor, continuing after each match's end (matches never
overlap).  Heading matches can only start at line starts. -/
def findHeaderMatches (s : Str) : Nat → Nat → List HeaderMatch
  | 0, _ => []
  | fuel+1, pos =>
    if s.length ≤ pos then []
    else if isLineStart s pos then
      match tryHeaderMatch s pos with
      | some m => m :: findHeaderMatches s fuel m.mEnd
      | none => findHeaderMatches s fuel (pos + 1)
    else findHeaderMatches s fuel (pos + 1)

/-- All heading matches of the content. -/
def headerMatches (s : Str) : List HeaderMatch :=
  findHeaderMatches s (s.length + 1) 0

/-- Line number of offset k: newlines before k, plus one (parseSections
lines 381-382). -/
def lineNumberAt (s : Str) (k : Nat) : Nat :=
  (s.take k).count '\n' + 1

/-- Go slice content[a:b]. -/
def slice (s : Str) (a b : Nat) : Str :=
  (s.take b).drop a

/-- Construction of the section list from the heading matches
(parseSections lines 362-396): each section's content runs from its
heading match's end to the next heading match's start, the last to the end
of input. -/
def sectionsFromMatches (s : Str) : List HeaderMatch → List Section
  | [] => []
  | m :: rest =>
    let contentEnd :=
      match rest with
      | [] => s.length
      | m2 :: _ => m2.mStart
    { title := slice s m.titleStart m.titleEnd
      level := m.level
      content := slice s m.mEnd contentEnd
      startLine := lineNumberAt s m.mStart
      endLine := lineNumberAt s contentEnd
      startOffset := m.mStart
      endOffset := contentEnd } :: sectionsFromMatches s rest

/-- Embedding of parseSections (parser.go lines 352-412): sections from
the heading matches, or a single level-0 section covering everything when
no heading was found. -/
def parseSections (content : Str) : List Section :=
  let sections := sectionsFromMatches content (headerMatches content)
  if sections.isEmpty then
    [{ title := []
       level := 0
       content := content
       startLine := 1
       endLine := content.count '\n' + 1
       startOffset := 0
       endOffset := content.length }]
  else sections

/-- Occurrence test of a pattern at a position. -/
def matchesAt (s pat : Str) (k : Nat) : Bool := pat.isPrefixOf (s.drop k)

/-- Newline positions inside the maximal whitespace run starting at base,
in descending order: the backtracking choices, greediest first, of a
\\s*\\n component starting at base. -/
def wsNewlineCandidates (s : Str) (base : Nat) : List Nat :=
  (((List.range (scanWhile s isRegexSpace (s.length + 1) base - base)).map
      (fun d => base + d)).filter (fun j => s.get? j = some '\n')).reverse

/-- Positions at or after lo where a newline followed by three dashes
occurs, in ascending order: the backtracking choices, laziest first, for
the end of the lazy frontmatter group. -/
def nlDashCandidates (s : Str) (lo : Nat) : List Nat :=
  (List.range s.length).filter (fun k => lo ≤ k ∧ matchesAt s ['\n', '-', '-', '-'] k)

/-- Backtracking search of extractFrontmatter's pattern,
(?s)^---\\s*\\n(.*?)\\n---\\s*\\n(.*)$, after the leading dashes: the
opening whitespace component takes the latest newline j of the whitespace
run from offset 3; the lazy group then ends at the earliest following
newline-plus-dashes occurrence k for which the second whitespace component
finds its newline j2 after k + 4; the final greedy group always matches
the rest under (?s).  Returns the first (j, k, j2) in backtracking order,
if any. -/
def fmSearch (s : Str) : Option (Nat × Nat × Nat) :=
  (wsNewlineCandidates s 3).findSome? (fun j =>
    (nlDashCandidates s (j + 1)).findSome? (fun k =>
      ((wsNewlineCandidates s (k + 4)).head?).map (fun j2 => (j, k, j2))))

/-- Match of the frontmatter pattern against the whole content: the
frontmatter group [j+1, k) and the remaining-content group [j2+1, end),
when the content opens with three dashes and the search succeeds. -/
def frontmatterMatch (s : Str) : Option (Str × Str) :=
  if ['-', '-', '-'].isPrefixOf s then
    match fmSearch s with
    | some (j, k, j2) => some (slice s (j + 1) k, slice s (j2 + 1) s.length)
    | none => none
  else none

/-- SplitN(line, ":", 2): the text before the first colon and everything
after it, when the line has a colon. -/
def splitN2Colon (l : Str) : Option (Str × Str) :=
  match findSub l [':'] with
  | none => none
  | some i => some (l.take i, l.drop (i + 1))

/-- Cutset of strings.Trim(…, quote characters). -/
def isQuoteChar (c : Char) : Bool := c = '"' || c = '\''

/-- strings.Trim with a character predicate: drop matching characters from
both ends. -/
def goTrimChars (p : Char → Bool) (s : Str) : Str :=
  ((s.dropWhile p).reverse.dropWhile p).reverse

/-- Value stored for a "tags" key (extractFrontmatter lines 329-341): a
bracketed value becomes the list of its comma-separated entries, each
whitespace-trimmed and stripped of surrounding quotes; any other value the
plain string. -/
def parseTagsValue (value : Str) : FMValue :=
  if ['['].isPrefixOf value ∧ [']'].isSuffixOf value then
    FMValue.list
      ((goSplitSep [','] ((slice value 1 (value.length - 1)).length + 1)
          (slice value 1 (value.length - 1))).map
        (fun tag => goTrimChars isQuoteChar (goTrimSpace tag)))
  else FMValue.str value

/-- Insertion or overwrite of a key (a Go map assignment), modelled on the
insertion-ordered association list. -/
def fmUpsert (m : List (Str × FMValue)) (key : Str) (v : FMValue) :
    List (Str × FMValue) :=
  if m.any (fun p => p.1 == key) then
    m.map (fun p => if p.1 == key then (p.1, v) else p)
  else m ++ [(key, v)]

/-- Lookup of a key in the frontmatter map. -/
def fmLookup (m : List (Str × FMValue)) (key : Str) : Option FMValue :=
  (m.find? (fun p => p.1 == key)).map (fun p => p.2)

/-- Key-value parsing of the frontmatter block (extractFrontmatter lines
319-346): each line with a colon contributes its trimmed key and value,
the "tags" key with the list treatment.  The bufio line scanner is
modelled by splitting on newlines: the final empty line the split adds has
no colon and is skipped, and carriage returns are absorbed by the trims,
so the scanner's details are unobservable here. -/
def parseFrontmatterPairs (fmYaml : Str) : List (Str × FMValue) :=
  (goSplitSep ['\n'] (fmYaml.length + 1) fmYaml).foldl
    (fun m line =>
      match splitN2Colon line with
      | none => m
      | some kv =>
        if goTrimSpace kv.1 = "tags".data then
          fmUpsert m (goTrimSpace kv.1) (parseTagsValue (goTrimSpace kv.2))
        else fmUpsert m (goTrimSpace kv.1) (FMValue.str (goTrimSpace kv.2)))
    []

/-- Embedding of extractFrontmatter (parser.go lines 302-349), before the
error wrapper: no pattern match returns the content unchanged with a nil
map; a match returns the parsed pairs and the remaining content. -/
def extractFrontmatterData (content : Str) :
    Option (List (Str × FMValue)) × Str :=
  match frontmatterMatch content with
  | none => (none, content)
  | some fm => (some (parseFrontmatterPairs fm.1), fm.2)

/-- Embedding of extractFrontmatter including its error result, which the
code always leaves nil. -/
def extractFrontmatter (content : Str) :
    Except String (Option (List (Str × FMValue)) × Str) :=
  Except.ok (extractFrontmatterData content)

/-- First character class of an inline tag: [a-zA-Z]. -/
def isTagStart (c : Char) : Bool := c.isAlpha

/-- Continuation character class of an inline tag: [a-zA-Z0-9_-]. -/
def isTagChar (c : Char) : Bool := c.isAlpha || c.isDigit || c = '_' || c = '-'

/-- Match of extractInlineTags' pattern (?:^|\\s)#([a-zA-Z][a-zA-Z0-9_-]*)
at position i, returning the match end and the tag group.  The caret
alternative (zero-width, position zero only) is tried before the
whitespace alternative, per left-to-right alternation. -/
def tryTagMatch (s : Str) (i : Nat) : Option (Nat × Str) :=
  match
    (if i = 0 then
      match s.get? 0, s.get? 1 with
      | some c0, some c1 =>
        if c0 = '#' ∧ isTagStart c1 then
          some (scanWhile s isTagChar (s.length + 1) 2, slice s 1 (scanWhile s isTagChar (s.length + 1) 2))
        else none
      | _, _ => none
    else none) with
  | some r => some r
  | none =>
    match s.get? i, s.get? (i + 1), s.get? (i + 2) with
    | some c0, some c1, some c2 =>
      if isRegexSpace c0 ∧ c1 = '#' ∧ isTagStart c2 then
        some (scanWhile s isTagChar (s.length + 1) (i + 3),
              slice s (i + 2) (scanWhile s isTagChar (s.length + 1) (i + 3)))
      else none
    | _, _, _ => none

/-- FindAllSubmatch scan for the tag pattern: leftmost matches,
non-overlapping, continuing after each match end. -/
def findTagMatches (s : Str) : Nat → Nat → List Str
  | 0, _ => []
  | fuel+1, pos =>
    match tryTagMatch s pos with
    | some r => r.2 :: findTagMatches s fuel r.1
    | none => if s.length ≤ pos then [] else findTagMatches s fuel (pos + 1)

/-- Embedding of extractInlineTags (parser.go lines 415-430): the matched
tag groups in order, first occurrence kept. -/
def extractInlineTags (content : Str) : List Str :=
  (findTagMatches content (content.length + 1) 0).foldl
    (fun tags tag => if tags.contains tag then tags else tags ++ [tag]) []

/-- Embedding of Parser.Parse (parser.go lines 78-140) with the default
options (frontmatter, tags and title extraction all enabled): extract
frontmatter (wrapping its error, which never occurs), take title and tags
from it, parse sections from the body, default the title to the first
section's, and union in the inline tags.  The path is set by ParseFile,
not here. -/
def parse (content : Str) : Except String Document :=
  match extractFrontmatter content with
  | Except.error err => Except.error ("failed to extract frontmatter: " ++ err)
  | Except.ok fmres =>
    let body := match fmres.1 with
      | some _ => fmres.2
      | none => content
    let titleFM : Str := match fmres.1 with
      | some fm =>
        match fmLookup fm "title".data with
        | some (FMValue.str t) => t
        | _ => []
      | none => []
    let tagsFM : List Str := match fmres.1 with
      | some fm =>
        match fmLookup fm "tags".data with
        | some (FMValue.list ts) => ts
        | some (FMValue.str t) => [t]
        | none => []
      | none => []
    let sections := parseSections body
    let title := if titleFM = [] ∧ sections ≠ [] then (sections.headD {}).title else titleFM
    let tags := (extractInlineTags body).foldl
      (fun acc tag => if acc.contains tag then acc else acc ++ [tag]) tagsFM
    Except.ok { title := title, path := [], content := content,
                frontmatter := fmres.1, sections := sections, tags := tags }

/-- Concatenation of the section contents in order (the quantity the
chunk-coverage property speaks about). -/
def concatSections (ss : List Section) : Str :=
  ss.foldl (fun acc sec => acc ++ sec.content) []

/-- Total length of the matched spans of a heading-match list. -/
def spanSum (ms : List HeaderMatch) : Nat :=
  (ms.map (fun m => m.mEnd - m.mStart)).sum

/-- Well-formedness of a heading-match list produced from a cursor
position: matches sit at or after the cursor, have positive width, stay in
bounds, and are pairwise ordered end-to-start. -/
def chainFrom (s : Str) : Nat → List HeaderMatch → Prop
  | _, [] => True
  | pos, m :: rest =>
    pos ≤ m.mStart ∧ m.mStart < m.mEnd ∧ m.mEnd ≤ s.length ∧ chainFrom s m.mEnd rest

end Markdown

/-! ## Chunk identifiers: SHA-1 based name UUIDs
(pkg/model/util.go HashString, pkg/indexer/indexer.go indexFile).

HashString calls uuid.NewSHA1 of the google/uuid library: the SHA-1 of the
namespace bytes followed by the name bytes, truncated to 16 bytes, with
the version and variant bits set, rendered in the hyphenated lowercase hex
form.  SHA-1 (FIPS 180-4) is implemented below over byte lists, with all
32-bit arithmetic as Nat modulo 2^32. -/

namespace Model

/-- Modulus of 32-bit words. -/
def M32 : Nat := 4294967296

/-- Left rotation of a 32-bit word. -/
def rotl32 (x k : Nat) : Nat :=
  ((x <<< k) ||| (x >>> (32 - k))) % M32

/-- Addition of 32-bit words. -/
def add32 (a b : Nat) : Nat := (a + b) % M32

/-- Big-endian combination of four bytes into a word. -/
def word32be (a b c d : Nat) : Nat := ((a * 256 + b) * 256 + c) * 256 + d

/-- Big-endian words of a byte list (16 per 64-byte block). -/
def bytesToWords : List Nat → List Nat
  | a :: b :: c :: d :: rest => word32be a b c d :: bytesToWords rest
  | _ => []

/-- SHA-1 message schedule: extend the 16 block words to 80 (fuel 64). -/
def sha1Schedule : Nat → Array Nat → Array Nat
  | 0, ws => ws
  | fuel+1, ws =>
    sha1Schedule fuel
      (ws.push (rotl32 ((ws.getD (ws.size - 3) 0 ^^^ ws.getD (ws.size - 8) 0) ^^^
        (ws.getD (ws.size - 14) 0 ^^^ ws.getD (ws.size - 16) 0)) 1))

/-- SHA-1 round function. -/
def sha1F (t b c d : Nat) : Nat :=
  if t < 20 then (b &&& c) ||| ((b ^^^ 0xFFFFFFFF) &&& d)
  else if t < 40 then b ^^^ c ^^^ d
  else if t < 60 then (b &&& c) ||| (b &&& d) ||| (c &&& d)
  else b ^^^ c ^^^ d

/-- SHA-1 round constants. -/
def sha1K (t : Nat) : Nat :=
  if t < 20 then 0x5A827999
  else if t < 40 then 0x6ED9EBA1
  else if t < 60 then 0x8F1BBCDC
  else 0xCA62C1D6

/-- The 80 compression rounds (fuel 80, starting at round 0). -/
def sha1Rounds : Nat → Array Nat → Nat → Nat × Nat × Nat × Nat × Nat →
    Nat × Nat × Nat × Nat × Nat
  | 0, _, _, st => st
  | fuel+1, ws, t, (a, b, c, d, e) =>
    sha1Rounds fuel ws (t+1)
      (add32 (add32 (add32 (add32 (rotl32 a 5) (sha1F t b c d)) e) (sha1K t)) (ws.getD t 0),
       a, rotl32 b 30, c, d)

/-- Block iteration of the compression function over the padded message. -/
def sha1Blocks : Nat → List Nat → Nat × Nat × Nat × Nat × Nat →
    Nat × Nat × Nat × Nat × Nat
  | 0, _, h => h
  | fuel+1, bytes, (h0, h1, h2, h3, h4) =>
    if bytes.length < 64 then (h0, h1, h2, h3, h4)
    else
      match sha1Rounds 80 (sha1Schedule 64 (bytesToWords (bytes.take 64)).toArray) 0
          (h0, h1, h2, h3, h4) with
      | (a, b, c, d, e) =>
        sha1Blocks fuel (bytes.drop 64)
          (add32 h0 a, add32 h1 b, add32 h2 c, add32 h3 d, add32 h4 e)

/-- Bit length of the message as eight big-endian bytes. -/
def sha1LenBytes (n : Nat) : List Nat :=
  [(n * 8) >>> 56 % 256, (n * 8) >>> 48 % 256, (n * 8) >>> 40 % 256, (n * 8) >>> 32 % 256,
   (n * 8) >>> 24 % 256, (n * 8) >>> 16 % 256, (n * 8) >>> 8 % 256, (n * 8) % 256]

/-- SHA-1 padding: a 0x80 byte, zeros to 56 mod 64, the bit length. -/
def sha1Pad (msg : List Nat) : List Nat :=
  msg ++ [0x80] ++ List.replicate ((64 - ((msg.length + 9) % 64)) % 64) 0 ++
    sha1LenBytes msg.length

/-- Big-endian bytes of a 32-bit word. -/
def word32Bytes (w : Nat) : List Nat :=
  [w >>> 24 % 256, w >>> 16 % 256, w >>> 8 % 256, w % 256]

/-- SHA-1 digest (20 bytes) of a byte list. -/
def sha1 (msg : List Nat) : List Nat :=
  match sha1Blocks ((sha1Pad msg).length / 64 + 1) (sha1Pad msg)
      (0x67452301, 0xEFCDAB89, 0x98BADCFE, 0x10325476, 0xC3D2E1F0) with
  | (h0, h1, h2, h3, h4) =>
    word32Bytes h0 ++ word32Bytes h1 ++ word32Bytes h2 ++ word32Bytes h3 ++ word32Bytes h4

/-- Lowercase hexadecimal digit. -/
def hexDigit (n : Nat) : Char :=
  if n < 10 then Char.ofNat ('0'.toNat + n) else Char.ofNat ('a'.toNat + (n - 10))

/-- Two lowercase hexadecimal digits of a byte. -/
def byteHex (b : Nat) : List Char := [hexDigit (b / 16), hexDigit (b % 16)]

/-- Hyphenated lowercase string form of 16 UUID bytes (8-4-4-4-12). -/
def uuidFormat (bs : List Nat) : String :=
  String.mk ((bs.take 4).flatMap byteHex ++ '-' ::
    (((bs.drop 4).take 2).flatMap byteHex ++ '-' ::
      (((bs.drop 6).take 2).flatMap byteHex ++ '-' ::
        (((bs.drop 8).take 2).flatMap byteHex ++ '-' :: (bs.drop 10).flatMap byteHex))))

/-- Model of uuid.NewSHA1: SHA-1 of the namespace bytes followed by the
name bytes, truncated to 16 bytes, version nibble set to 5 and RFC 4122
variant bits set (bytes 6 and 8). -/
def uuidNewSHA1Bytes (space data : List Nat) : List Nat :=
  ((sha1 (space ++ data)).take 16).set 6
      ((((sha1 (space ++ data)).take 16).getD 6 0 &&& 0x0F) ||| 0x50) |>.set 8
      ((((sha1 (space ++ data)).take 16).getD 8 0 &&& 0x3F) ||| 0x80)

/-- The sixteen bytes of the fixed namespace UUID
6ba7b810-9dad-11d1-80b4-00c04fd430c8 (the result of uuid.MustParse on the
literal in HashString). -/
def namespaceUUIDBytes : List Nat :=
  [0x6b, 0xa7, 0xb8, 0x10, 0x9d, 0xad, 0x11, 0xd1,
   0x80, 0xb4, 0x00, 0xc0, 0x4f, 0xd4, 0x30, 0xc8]

/-- Bytes of a string: each character's code point (agrees with Go's UTF-8
bytes on ASCII input). -/
def strBytes (s : String) : List Nat := s.data.map Char.toNat

/-- Embedding of HashString (util.go lines 14-22): the SHA-1 name-based
UUID of the fixed namespace and the input string, rendered as a string. -/
def HashString (input : String) : String :=
  uuidFormat (uuidNewSHA1Bytes namespaceUUIDBytes (strBytes input))

end Model

namespace Indexer

/-- Chunk point id computed by indexFile (indexer.go line 329): HashString
of Sprintf("%s:%s#%d", vaultName, relPath, i). -/
def chunkPointId (vaultName relPath : String) (i : Nat) : String :=
  ObsFind.Model.HashString (vaultName ++ ":" ++ relPath ++ "#" ++ Nat.repr i)

/-- Chunk identifier as the specification words it: the SHA1-name-based
UUID of the fixed namespace UUID and the string vaultName + ":" +
relativePath + "#" + chunkIndex.  Written from the specification text, to
be compared with the code's chunkPointId. -/
def specChunkUUID (vaultName relPath : String) (i : Nat) : String :=
  ObsFind.Model.uuidFormat
    (ObsFind.Model.uuidNewSHA1Bytes ObsFind.Model.namespaceUUIDBytes
      (ObsFind.Model.strBytes (vaultName ++ ":" ++ relPath ++ "#" ++ Nat.repr i)))

end Indexer

end ObsFind

/-! ## Theorems -/

/-- Helper: the best-match scan leaves its accumulator untouched when no
vault path prefixes the file path. -/
theorem ObsFind.Indexer.bestPrefixScan_of_no_match (path : String) (l : List String)
    (acc : String × Nat) (h : ∀ v ∈ l, ObsFind.goHasPrefix v path = false) :
    ObsFind.Indexer.bestPrefixScan path l acc = acc := by
  induction l generalizing acc with
  | nil => rfl
  | cons v rest ih =>
    have hv : ObsFind.goHasPrefix v path = false := h v (by simp)
    simp only [ObsFind.Indexer.bestPrefixScan, hv, Bool.false_eq_true, if_false]
    exact ih acc (fun w hw => h w (by simp [hw]))

/-- C10: Vault attribution never fails: with exactly one configured vault,
findBaseVaultPath returns that vault for every file path without any prefix
check; with several configured vaults none of which prefixes the file path,
it returns the first configured vault rather than an error. -/
theorem ObsFind.Indexer.findBaseVaultPath_total_attribution :
    (∀ (v path : String), ObsFind.Indexer.findBaseVaultPath [v] path = v) ∧
    (∀ (v0 : String) (rest : List String) (path : String),
      rest ≠ [] →
      (∀ v ∈ v0 :: rest, ObsFind.goHasPrefix v path = false) →
      ObsFind.Indexer.findBaseVaultPath (v0 :: rest) path = v0) := by
  constructor
  · intro v path
    simp [ObsFind.Indexer.findBaseVaultPath]
  · intro v0 rest path hrest hnone
    have hlen : (v0 :: rest).length ≠ 1 := by
      simp only [List.length_cons]
      intro hcontra
      exact hrest (List.length_eq_zero.mp (by omega))
    have hscan := ObsFind.Indexer.bestPrefixScan_of_no_match path (v0 :: rest) ("", 0) hnone
    simp [ObsFind.Indexer.findBaseVaultPath, hlen, hscan]

/-- Witness for C10: two vaults, a path prefixed by neither, attributed to
the first vault. -/
theorem ObsFind.Indexer.findBaseVaultPath_total_attribution_witness :
    ObsFind.Indexer.findBaseVaultPath ["/va", "/vb"] "/elsewhere/x.md" = "/va" :=
  ObsFind.Indexer.findBaseVaultPath_total_attribution.2 "/va" ["/vb"] "/elsewhere/x.md"
    (by decide) (by decide)

/-- C8 counterexample: a batch whose longest text has 5001 bytes gets a
61-second timeout from the code (base 60), while the claimed formula
base + ceil(5001/5000) gives 62 seconds. -/
theorem ObsFind.Model.embedBatchTimeout_counterexample :
    ObsFind.Model.embedBatchTimeoutSec 60 [String.mk (List.replicate 5001 'a')] = 61 ∧
    ObsFind.Model.specClaimTimeoutSec 60
      (ObsFind.Model.longestTextLen [String.mk (List.replicate 5001 'a')]) = 62 ∧
    ObsFind.Model.embedBatchTimeoutSec 60 [String.mk (List.replicate 5001 'a')] ≠
      ObsFind.Model.specClaimTimeoutSec 60
        (ObsFind.Model.longestTextLen [String.mk (List.replicate 5001 'a')]) := by
  have hlen : (String.mk (List.replicate 5001 'a')).length = 5001 := by
    rw [String.length]
    exact List.length_replicate 5001 'a'
  have hlongest :
      ObsFind.Model.longestTextLen [String.mk (List.replicate 5001 'a')] = 5001 := by
    unfold ObsFind.Model.longestTextLen
    simp only [List.foldl_cons, List.foldl_nil]
    rw [hlen]
    decide
  refine ⟨?_, ?_, ?_⟩
  · unfold ObsFind.Model.embedBatchTimeoutSec
    rw [hlongest]
    decide
  · rw [hlongest]
    decide
  · unfold ObsFind.Model.embedBatchTimeoutSec
    rw [hlongest]
    decide

/-- Helper: the Go longest-text fold computes the maximum of the text
lengths. -/
theorem ObsFind.Model.longestTextLen_eq_foldl_max (texts : List String) (a : Nat) :
    texts.foldl (fun longest t => if t.length > longest then t.length else longest) a =
      (texts.map String.length).foldl max a := by
  induction texts generalizing a with
  | nil => rfl
  | cons t rest ih =>
    simp only [List.foldl_cons, List.map_cons]
    rw [ih]
    congr 1
    rw [Nat.max_def]
    split <;> split <;> omega

/-- C8 amended: every embedding request of EmbedBatch uses the timeout
base + (floor((L-5000)/5000) + 1) seconds when the longest text length L in
the whole input exceeds 5000 bytes, and exactly the base timeout otherwise
(base defaults to 60 s via configuration). -/
theorem ObsFind.Model.embedBatchTimeout_formula (baseSec : Nat) (texts : List String) :
    ObsFind.Model.embedBatchTimeoutSec baseSec texts =
      (let L := (texts.map String.length).foldl max 0
       if 5000 < L then baseSec + ((L - 5000) / 5000 + 1) else baseSec) := by
  unfold ObsFind.Model.embedBatchTimeoutSec ObsFind.Model.dynamicTimeoutSec
    ObsFind.Model.longestTextLen
  rw [ObsFind.Model.longestTextLen_eq_foldl_max]

/-- Helper: the per-file step advances the total by one and the sum of
indexed and failed by one. -/
theorem ObsFind.Indexer.indexVaultStep_counts (st : ObsFind.Indexer.Stats) (b : Bool) :
    (ObsFind.Indexer.indexVaultStep st b).totalDocuments = st.totalDocuments + 1 ∧
    (ObsFind.Indexer.indexVaultStep st b).indexedDocuments +
      (ObsFind.Indexer.indexVaultStep st b).failedDocuments =
      st.indexedDocuments + st.failedDocuments + 1 := by
  cases b <;> simp [ObsFind.Indexer.indexVaultStep] <;> omega

/-- Helper: a run preserves the gap between the total and the sum of
indexed and failed counters. -/
theorem ObsFind.Indexer.indexVaultRun_counts (st : ObsFind.Indexer.Stats) (outcomes : List Bool) :
    (ObsFind.Indexer.indexVaultRun st outcomes).totalDocuments =
      st.totalDocuments + outcomes.length ∧
    (ObsFind.Indexer.indexVaultRun st outcomes).indexedDocuments +
      (ObsFind.Indexer.indexVaultRun st outcomes).failedDocuments =
      st.indexedDocuments + st.failedDocuments + outcomes.length := by
  induction outcomes generalizing st with
  | nil => simp [ObsFind.Indexer.indexVaultRun]
  | cons b rest ih =>
    have hstep := ObsFind.Indexer.indexVaultStep_counts st b
    have hrest := ih (ObsFind.Indexer.indexVaultStep st b)
    simp only [ObsFind.Indexer.indexVaultRun, List.foldl_cons] at hrest ⊢
    constructor
    · rw [hrest.1, hstep.1, List.length_cons]; omega
    · rw [hrest.2, hstep.2, List.length_cons]; omega

/-- C7: during every full-reindex run starting from stats whose indexed and
failed counters do not exceed the total, after every per-file step the sum
of indexed and failed documents stays at or below the total; and when the
run started with the counters balanced (as a fresh daemon is) and completes,
indexed plus failed equals the total. -/
theorem ObsFind.Indexer.indexVault_stats_invariant (st : ObsFind.Indexer.Stats)
    (outcomes : List Bool)
    (hinit : st.indexedDocuments + st.failedDocuments ≤ st.totalDocuments) :
    (∀ pre suf, outcomes = pre ++ suf →
      (ObsFind.Indexer.indexVaultRun (ObsFind.Indexer.indexVaultStart st) pre).indexedDocuments +
        (ObsFind.Indexer.indexVaultRun (ObsFind.Indexer.indexVaultStart st) pre).failedDocuments ≤
        (ObsFind.Indexer.indexVaultRun (ObsFind.Indexer.indexVaultStart st) pre).totalDocuments) ∧
    (st.indexedDocuments + st.failedDocuments = st.totalDocuments →
      (ObsFind.Indexer.indexVaultFinish
          (ObsFind.Indexer.indexVaultRun (ObsFind.Indexer.indexVaultStart st) outcomes)).indexedDocuments +
        (ObsFind.Indexer.indexVaultFinish
          (ObsFind.Indexer.indexVaultRun (ObsFind.Indexer.indexVaultStart st) outcomes)).failedDocuments =
        (ObsFind.Indexer.indexVaultFinish
          (ObsFind.Indexer.indexVaultRun (ObsFind.Indexer.indexVaultStart st) outcomes)).totalDocuments) := by
  have hstart : (ObsFind.Indexer.indexVaultStart st).indexedDocuments = st.indexedDocuments ∧
      (ObsFind.Indexer.indexVaultStart st).failedDocuments = st.failedDocuments ∧
      (ObsFind.Indexer.indexVaultStart st).totalDocuments = st.totalDocuments := by
    simp [ObsFind.Indexer.indexVaultStart]
  constructor
  · intro pre _ _
    have h := ObsFind.Indexer.indexVaultRun_counts (ObsFind.Indexer.indexVaultStart st) pre
    rw [h.1, h.2, hstart.1, hstart.2.1, hstart.2.2]
    omega
  · intro heq
    have h := ObsFind.Indexer.indexVaultRun_counts (ObsFind.Indexer.indexVaultStart st) outcomes
    unfold ObsFind.Indexer.indexVaultFinish
    split <;>
      simp only [] <;>
      rw [h.1, h.2, hstart.1, hstart.2.1, hstart.2.2] <;>
      omega

/-- Witness for C7: a fresh daemon (all counters zero) running over two
files, one succeeding and one failing. -/
theorem ObsFind.Indexer.indexVault_stats_invariant_witness :
    ((ObsFind.Indexer.indexVaultRun
        (ObsFind.Indexer.indexVaultStart ⟨0, 0, 0, "idle"⟩) [true]).indexedDocuments +
      (ObsFind.Indexer.indexVaultRun
        (ObsFind.Indexer.indexVaultStart ⟨0, 0, 0, "idle"⟩) [true]).failedDocuments ≤
      (ObsFind.Indexer.indexVaultRun
        (ObsFind.Indexer.indexVaultStart ⟨0, 0, 0, "idle"⟩) [true]).totalDocuments) ∧
    ((ObsFind.Indexer.indexVaultFinish
        (ObsFind.Indexer.indexVaultRun
          (ObsFind.Indexer.indexVaultStart ⟨0, 0, 0, "idle"⟩) [true, false])).indexedDocuments +
      (ObsFind.Indexer.indexVaultFinish
        (ObsFind.Indexer.indexVaultRun
          (ObsFind.Indexer.indexVaultStart ⟨0, 0, 0, "idle"⟩) [true, false])).failedDocuments =
      (ObsFind.Indexer.indexVaultFinish
        (ObsFind.Indexer.indexVaultRun
          (ObsFind.Indexer.indexVaultStart ⟨0, 0, 0, "idle"⟩) [true, false])).totalDocuments) :=
  ⟨(ObsFind.Indexer.indexVault_stats_invariant ⟨0, 0, 0, "idle"⟩ [true, false]
      (by decide)).1 [true] [false] rfl,
   (ObsFind.Indexer.indexVault_stats_invariant ⟨0, 0, 0, "idle"⟩ [true, false]
      (by decide)).2 (by decide)⟩

/-- C4 (code bug): a document ending in a blank paragraph reaches end of
input with a non-empty paragraph buffer, yet no final chunk is emitted: the
empty trailing paragraph takes the continue branch before the end-of-input
emission check.  For body "hello\n\n" both sliding-window entry points
return zero chunks while the buffer still holds "hello". -/
theorem ObsFind.Markdown.slidingWindow_trailing_buffer_dropped :
    ObsFind.Markdown.chunkBySlidingWindow
        { path := "n.md".data, content := "hello\n\n".data } 500 100 = [] ∧
    (ObsFind.Markdown.swFinalState ObsFind.Markdown.swEmit
        { path := "n.md".data, content := "hello\n\n".data } 500 400).currentChunk =
      "hello".data ∧
    ObsFind.Markdown.slidingWindowChunking
        { path := "n.md".data, content := "hello\n\n".data }
        { maxChunkSize := 500, minChunkSize := 100, chunkOverlap := 100 } = [] := by
  refine ⟨by decide, by decide, by decide⟩

/-- C3 counterexample: a reindex request arriving while the indexer reports
a run in progress is answered with HTTP 500, not 409. -/
theorem ObsFind.Api.handleIndexAll_busy_counterexample :
    ObsFind.Api.handleIndexAll true true =
      { status := 500, body := "Reindexing failed: indexing is already in progress" } ∧
    (ObsFind.Api.handleIndexAll true true).status ≠ 409 := by
  refine ⟨rfl, by decide⟩

/-- C3 amended: when POST /index/all finds the indexer already running it
responds with HTTP 500 and the error message "Reindexing failed: indexing
is already in progress"; a request finding the indexer idle responds 200
with status "reindexing_started". -/
theorem ObsFind.Api.handleIndexAll_responses (isIndexing : Bool) :
    ObsFind.Api.handleIndexAll true isIndexing =
      (if isIndexing then
        { status := 500, body := "Reindexing failed: indexing is already in progress" }
      else { status := 200, body := "reindexing_started" }) := by
  cases isIndexing <;> rfl

/-- Helper: when at least one attempt is configured, an error-free result
of the retry loop under a faithful provider carries exactly the provider's
embeddings of the batch. -/
theorem ObsFind.Model.ollamaRetry_ok {V : Type}
    (provider : List String → Nat → Except Unit (List V)) (batch : List String)
    (f : String → V) (hprov : ∀ b a vs, provider b a = Except.ok vs → vs = b.map f) :
    ∀ fuel attempt vs, 0 < fuel →
      ObsFind.Model.ollamaRetry provider batch attempt fuel = Except.ok vs →
      vs = batch.map f := by
  intro fuel
  induction fuel with
  | zero => intro attempt vs h; omega
  | succ n ih =>
    intro attempt vs _ hok
    cases n with
    | zero => exact hprov batch attempt vs hok
    | succ m =>
      simp only [ObsFind.Model.ollamaRetry] at hok
      cases hp : provider batch attempt with
      | ok vs0 =>
        rw [hp] at hok
        dsimp only at hok
        by_cases hlen : vs0.length = batch.length
        · rw [if_pos hlen] at hok
          cases hok
          exact hprov batch attempt _ hp
        · rw [if_neg hlen] at hok
          exact ih (attempt+1) vs (by omega) hok
      | error e =>
        rw [hp] at hok
        dsimp only at hok
        exact ih (attempt+1) vs (by omega) hok

/-- Helper: sequential batch processing of the batch slicing appends, in
order, the embeddings of every input text after the accumulator. -/
theorem ObsFind.Model.ollamaProcessBatches_ok {V : Type}
    (provider : List String → Nat → Except Unit (List V)) (f : String → V)
    (hprov : ∀ b a vs, provider b a = Except.ok vs → vs = b.map f)
    (batchSize maxAttempts : Nat) (hbs : 0 < batchSize) (hma : 0 < maxAttempts) :
    ∀ fuel (texts : List String) (acc out : List V), texts.length ≤ fuel →
      ObsFind.Model.ollamaProcessBatches provider maxAttempts acc
        (ObsFind.Model.ollamaBatches batchSize fuel texts) = Except.ok out →
      out = acc ++ texts.map f := by
  intro fuel
  induction fuel with
  | zero =>
    intro texts acc out hlen hok
    have htexts : texts = [] := List.length_eq_zero.mp (by omega)
    subst htexts
    cases hok
    simp
  | succ n ih =>
    intro texts acc out hlen hok
    cases texts with
    | nil =>
      cases hok
      simp
    | cons t ts =>
      simp only [ObsFind.Model.ollamaBatches, ObsFind.Model.ollamaProcessBatches] at hok
      cases hr : ObsFind.Model.ollamaRetry provider ((t :: ts).take batchSize) 0 maxAttempts with
      | error e => rw [hr] at hok; cases hok
      | ok vs =>
        rw [hr] at hok
        have hvs : vs = ((t :: ts).take batchSize).map f :=
          ObsFind.Model.ollamaRetry_ok provider ((t :: ts).take batchSize) f hprov
            maxAttempts 0 vs hma hr
        have hdlen : ((t :: ts).drop batchSize).length ≤ n := by
          simp only [List.length_cons] at hlen
          rw [List.length_drop]
          simp only [List.length_cons]
          omega
        have hih := ih ((t :: ts).drop batchSize) (acc ++ vs) out hdlen hok
        rw [hih, hvs, List.append_assoc, ← List.map_append, List.take_append_drop]

/-- Helper: an error-free result of OllamaEmbedder.EmbedBatch under a
faithful provider is the in-order embedding of the whole input. -/
theorem ObsFind.Model.ollamaEmbedBatch_ok {V : Type}
    (provider : List String → Nat → Except Unit (List V)) (f : String → V)
    (hprov : ∀ b a vs, provider b a = Except.ok vs → vs = b.map f)
    (batchSize maxAttempts : Nat) (hbs : 0 < batchSize) (hma : 0 < maxAttempts)
    (texts : List String) (out : List V)
    (hok : ObsFind.Model.ollamaEmbedBatch batchSize maxAttempts provider texts =
      Except.ok out) :
    out = texts.map f := by
  unfold ObsFind.Model.ollamaEmbedBatch at hok
  by_cases he : texts.isEmpty
  · rw [if_pos he] at hok
    cases hok
    rw [List.isEmpty_iff.mp he]
    rfl
  · rw [if_neg he] at hok
    have := ObsFind.Model.ollamaProcessBatches_ok provider f hprov batchSize maxAttempts
      hbs hma texts.length texts [] out (Nat.le_refl _) hok
    simpa using this

/-- Helper: every index recorded by the partition pass is at least the
starting index. -/
theorem ObsFind.Model.cachedPartition_indices_lb {V : Type} (cacheGet : String → Option V) :
    ∀ (texts : List String) (i : Nat),
      ∀ n ∈ (ObsFind.Model.cachedPartition cacheGet texts i).2.2, i ≤ n := by
  intro texts
  induction texts with
  | nil => intro i n hn; simp [ObsFind.Model.cachedPartition] at hn
  | cons t rest ih =>
    intro i n hn
    cases hc : cacheGet t with
    | some v =>
      simp only [ObsFind.Model.cachedPartition, hc] at hn
      exact Nat.le_of_succ_le (ih (i+1) n hn)
    | none =>
      simp only [ObsFind.Model.cachedPartition, hc, List.mem_cons] at hn
      cases hn with
      | inl h => omega
      | inr h => exact Nat.le_of_succ_le (ih (i+1) n h)

/-- Helper: writing at shifted positions at least one past the head leaves
the head untouched and acts on the tail with the shift advanced. -/
theorem ObsFind.Model.foldl_set_shift {V : Type} :
    ∀ (pairs : List (V × Nat)) (x : Option V) (xs : List (Option V)) (i : Nat),
      (∀ p ∈ pairs, i + 1 ≤ p.2) →
      pairs.foldl (fun acc p => acc.set (p.2 - i) (some p.1)) (x :: xs) =
        x :: pairs.foldl (fun acc p => acc.set (p.2 - (i+1)) (some p.1)) xs := by
  intro pairs
  induction pairs with
  | nil => intro x xs i _; rfl
  | cons p ps ih =>
    intro x xs i hlb
    have hp : i + 1 ≤ p.2 := hlb p (by simp)
    have hsub : p.2 - i = (p.2 - (i+1)) + 1 := by omega
    simp only [List.foldl_cons, hsub, List.set_cons_succ]
    exact ih x (xs.set (p.2 - (i+1)) (some p.1)) i (fun q hq => hlb q (by simp [hq]))

/-- Helper: replaying the uncached embeddings over the partial results of
the partition reconstitutes the in-order embedding of every text, for any
starting index. -/
theorem ObsFind.Model.cachedApply_spec {V : Type} (cacheGet : String → Option V)
    (f : String → V) (hcache : ∀ t v, cacheGet t = some v → v = f t) :
    ∀ (texts : List String) (i : Nat),
      ((((ObsFind.Model.cachedPartition cacheGet texts i).2.1).map f).zip
          (ObsFind.Model.cachedPartition cacheGet texts i).2.2).foldl
        (fun acc p => acc.set (p.2 - i) (some p.1))
        (ObsFind.Model.cachedPartition cacheGet texts i).1 =
      texts.map (fun t => some (f t)) := by
  intro texts
  induction texts with
  | nil => intro i; rfl
  | cons t rest ih =>
    intro i
    have hlb := ObsFind.Model.cachedPartition_indices_lb cacheGet rest (i+1)
    cases hc : cacheGet t with
    | some v =>
      simp only [ObsFind.Model.cachedPartition, hc, List.map_cons]
      rw [ObsFind.Model.foldl_set_shift _ _ _ i
        (fun p hp => hlb p.2 (List.of_mem_zip hp).2)]
      rw [ih (i+1), hcache t v hc]
    | none =>
      simp only [ObsFind.Model.cachedPartition, hc, List.map_cons, List.zip_cons_cons,
        List.foldl_cons, Nat.sub_self, List.set_cons_zero]
      rw [ObsFind.Model.foldl_set_shift _ _ _ i
        (fun p hp => hlb p.2 (List.of_mem_zip hp).2)]
      rw [ih (i+1)]

/-- C5 amended: for every provider whose error-free responses contain
exactly one vector per requested text (the i-th being the embedding of the
i-th), every cache whose entries agree with those embeddings, every
positive batch size and attempt budget: whenever the cached embed_batch
over the batching Ollama embed_batch returns without error, the result has
one entry per input text, in input order, each holding the embedding of its
text - regardless of batch-size slicing and of which texts were cached. -/
theorem ObsFind.Model.embedBatch_order_preserving {V : Type} (f : String → V)
    (provider : List String → Nat → Except Unit (List V))
    (cacheGet : String → Option V) (batchSize maxAttempts : Nat)
    (hbs : 0 < batchSize) (hma : 0 < maxAttempts)
    (hprov : ∀ b a vs, provider b a = Except.ok vs → vs = b.map f)
    (hcache : ∀ t v, cacheGet t = some v → v = f t)
    (texts : List String) (out : List (Option V))
    (hout : ObsFind.Model.cachedEmbedBatch cacheGet
        (ObsFind.Model.ollamaEmbedBatch batchSize maxAttempts provider) texts =
        Except.ok out) :
    out = texts.map (fun t => some (f t)) := by
  have key := ObsFind.Model.cachedApply_spec cacheGet f hcache texts 0
  have hfun : (fun (acc : List (Option V)) (p : V × Nat) => acc.set (p.2 - 0) (some p.1)) =
      (fun (acc : List (Option V)) (p : V × Nat) => acc.set p.2 (some p.1)) := by
    funext acc p
    rw [Nat.sub_zero]
  rw [hfun] at key
  unfold ObsFind.Model.cachedEmbedBatch at hout
  by_cases hu : (ObsFind.Model.cachedPartition cacheGet texts 0).2.1.length > 0
  · rw [if_pos hu] at hout
    cases hinner : ObsFind.Model.ollamaEmbedBatch batchSize maxAttempts provider
        (ObsFind.Model.cachedPartition cacheGet texts 0).2.1 with
    | error e => rw [hinner] at hout; cases hout
    | ok embeddings =>
      rw [hinner] at hout
      cases hout
      have hemb : embeddings = ((ObsFind.Model.cachedPartition cacheGet texts 0).2.1).map f :=
        ObsFind.Model.ollamaEmbedBatch_ok provider f hprov batchSize maxAttempts hbs hma
          _ embeddings hinner
      rw [ObsFind.Model.applyEmbeddings, hemb]
      exact key
  · rw [if_neg hu] at hout
    cases hout
    have husnil : (ObsFind.Model.cachedPartition cacheGet texts 0).2.1 = [] :=
      List.length_eq_zero.mp (by omega)
    rw [husnil] at key
    simpa using key

/-- Witness for C5 amended: three texts, one served from the cache, batch
size two, embeddings by text length. -/
theorem ObsFind.Model.embedBatch_order_preserving_witness :
    ([some 1, some 2, some 3] : List (Option Nat)) =
      ["a", "hi", "abc"].map (fun t => some t.length) :=
  ObsFind.Model.embedBatch_order_preserving String.length
    (fun b _ => Except.ok (b.map String.length))
    (fun t => if t = "hi" then some 2 else none) 2 5
    (by decide) (by decide)
    (fun b a vs h => by
      injection h with h2
      exact h2.symm)
    (fun t v h => by
      by_cases ht : t = "hi"
      · subst ht
        dsimp only at h
        rw [if_pos rfl] at h
        injection h with h2
        rw [← h2]
        rfl
      · dsimp only at h
        rw [if_neg ht] at h
        cases h)
    ["a", "hi", "abc"] [some 1, some 2, some 3] rfl

/-- C5 counterexample: a provider that answers every call with an empty
vector list and no error makes OllamaEmbedder.EmbedBatch return without
error with zero vectors for a one-text input: the retry loop exits with a
nil error after exhausting its attempts and the short response is appended
as-is. -/
theorem ObsFind.Model.embedBatch_length_counterexample :
    ObsFind.Model.ollamaEmbedBatch 8 5 ObsFind.Model.shortResponseProvider ["a"] =
      Except.ok [] ∧
    ¬ (∀ (out : List (List Nat)),
        ObsFind.Model.ollamaEmbedBatch 8 5 ObsFind.Model.shortResponseProvider ["a"] =
          Except.ok out → out.length = ["a"].length) :=
  ⟨rfl, fun h => by have h2 := h [] rfl; simp at h2⟩

/-- Helper: membership in a sorted insertion. -/
theorem ObsFind.Indexer.mem_insertSortedBy {α : Type} (le : α → α → Bool) (x y : α) :
    ∀ l, (y ∈ ObsFind.Indexer.insertSortedBy le x l ↔ y = x ∨ y ∈ l) := by
  intro l
  induction l with
  | nil => simp [ObsFind.Indexer.insertSortedBy]
  | cons z zs ih =>
    simp only [ObsFind.Indexer.insertSortedBy]
    split
    · simp [List.mem_cons]
    · simp only [List.mem_cons, ih]
      tauto

/-- Helper: the insertion sort permutes membership. -/
theorem ObsFind.Indexer.mem_sortBy {α : Type} (le : α → α → Bool) (y : α) :
    ∀ l, (y ∈ ObsFind.Indexer.sortBy le l ↔ y ∈ l) := by
  intro l
  induction l with
  | nil => simp [ObsFind.Indexer.sortBy]
  | cons x xs ih =>
    simp only [ObsFind.Indexer.sortBy, List.mem_cons,
      ObsFind.Indexer.mem_insertSortedBy, ih]

/-- Helper: inserting into a sorted list keeps it sorted, for a total and
transitive Bool relation. -/
theorem ObsFind.Indexer.pairwise_insertSortedBy {α : Type} (le : α → α → Bool)
    (htrans : ∀ a b c, le a b = true → le b c = true → le a c = true)
    (htot : ∀ a b, le a b = true ∨ le b a = true) (x : α) :
    ∀ l, List.Pairwise (fun a b => le a b = true) l →
      List.Pairwise (fun a b => le a b = true) (ObsFind.Indexer.insertSortedBy le x l) := by
  intro l
  induction l with
  | nil =>
    intro _
    simp [ObsFind.Indexer.insertSortedBy]
  | cons y ys ih =>
    intro hp
    obtain ⟨hy, hys⟩ := List.pairwise_cons.mp hp
    simp only [ObsFind.Indexer.insertSortedBy]
    split
    · next hxy =>
      exact List.Pairwise.cons
        (fun z hz => by
          rcases List.mem_cons.mp hz with rfl | hz2
          · exact hxy
          · exact htrans x y z hxy (hy z hz2))
        hp
    · next hxy =>
      apply List.Pairwise.cons
      · intro z hz
        rcases (ObsFind.Indexer.mem_insertSortedBy le x z ys).mp hz with hzx | hz2
        · rcases htot x y with h | h
          · exact absurd h hxy
          · rw [hzx]
            exact h
        · exact hy z hz2
      · exact ih hys

/-- Helper: the insertion sort sorts, for a total and transitive Bool
relation. -/
theorem ObsFind.Indexer.pairwise_sortBy {α : Type} (le : α → α → Bool)
    (htrans : ∀ a b c, le a b = true → le b c = true → le a c = true)
    (htot : ∀ a b, le a b = true ∨ le b a = true) :
    ∀ l, List.Pairwise (fun a b => le a b = true) (ObsFind.Indexer.sortBy le l) := by
  intro l
  induction l with
  | nil => simp [ObsFind.Indexer.sortBy]
  | cons x xs ih =>
    exact ObsFind.Indexer.pairwise_insertSortedBy le htrans htot x _ ih

/-- C6: every result of the text search called with a non-empty path
prefix P has a path starting with P; if the tag list T is non-empty, its
tags intersect T; and the returned list is sorted by score in descending
order. -/
theorem ObsFind.Indexer.search_filter_properties (options : ObsFind.Indexer.SearchOptions)
    (points : List ObsFind.Indexer.ScoredPoint) (hP : options.pathPrefix ≠ "") :
    (∀ r ∈ ObsFind.Indexer.searchResults options points,
        ObsFind.goHasPrefix options.pathPrefix r.path = true ∧
        (options.tags ≠ [] → ∃ t ∈ options.tags, t ∈ r.tags)) ∧
    List.Pairwise (fun a b : ObsFind.Indexer.SearchResult => b.score ≤ a.score)
      (ObsFind.Indexer.searchResults options points) := by
  constructor
  · intro r hr
    rw [ObsFind.Indexer.searchResults, ObsFind.Indexer.mem_sortBy,
      List.mem_filterMap] at hr
    obtain ⟨p, _, hconv⟩ := hr
    unfold ObsFind.Indexer.searchConvert at hconv
    split at hconv
    · cases hconv
    · split at hconv
      · cases hconv
      · split at hconv
        · cases hconv
        · next hpre htags =>
          cases hconv
          constructor
          · by_contra hc
            exact hpre ⟨hP, hc⟩
          · intro hne
            have hm : ObsFind.Indexer.tagsMatched options.tags p.payloadTags = true := by
              by_contra hc
              exact htags ⟨hne, hc⟩
            rw [ObsFind.Indexer.tagsMatched, List.any_eq_true] at hm
            obtain ⟨tag, htag, hinner⟩ := hm
            rw [List.any_eq_true] at hinner
            obtain ⟨docTag, hdoc, heq⟩ := hinner
            exact ⟨tag, htag, by rw [eq_of_beq heq]; exact hdoc⟩
  · have htrans : ∀ a b c : ObsFind.Indexer.SearchResult,
        ObsFind.Indexer.scoreDescLe a b = true → ObsFind.Indexer.scoreDescLe b c = true →
        ObsFind.Indexer.scoreDescLe a c = true := by
      intro a b c hab hbc
      rw [ObsFind.Indexer.scoreDescLe, decide_eq_true_eq] at hab hbc ⊢
      omega
    have htot : ∀ a b : ObsFind.Indexer.SearchResult,
        ObsFind.Indexer.scoreDescLe a b = true ∨ ObsFind.Indexer.scoreDescLe b a = true := by
      intro a b
      rw [ObsFind.Indexer.scoreDescLe, ObsFind.Indexer.scoreDescLe,
        decide_eq_true_eq, decide_eq_true_eq]
      omega
    have hp := ObsFind.Indexer.pairwise_sortBy ObsFind.Indexer.scoreDescLe htrans htot
      (points.filterMap (ObsFind.Indexer.searchConvert options))
    rw [ObsFind.Indexer.searchResults]
    exact hp.imp (fun h => by
      rw [ObsFind.Indexer.scoreDescLe, decide_eq_true_eq] at h
      exact h)

/-- Witness for C6: three stored points, one failing the prefix filter,
searched with prefix "notes/" and tag list ["x"]. -/
theorem ObsFind.Indexer.search_filter_properties_witness :
    (∀ r ∈ ObsFind.Indexer.searchResults
        { minScore := 1, tags := ["x"], pathPrefix := "notes/" }
        [{ score := 2, payloadPath := "notes/a.md", payloadTags := ["x", "y"] },
         { score := 5, payloadPath := "notes/b.md", payloadTags := ["x"] },
         { score := 3, payloadPath := "other/c.md", payloadTags := ["x"] }],
        ObsFind.goHasPrefix "notes/" r.path = true ∧
        ((["x"] : List String) ≠ [] → ∃ t ∈ (["x"] : List String), t ∈ r.tags)) ∧
    List.Pairwise (fun a b : ObsFind.Indexer.SearchResult => b.score ≤ a.score)
      (ObsFind.Indexer.searchResults
        { minScore := 1, tags := ["x"], pathPrefix := "notes/" }
        [{ score := 2, payloadPath := "notes/a.md", payloadTags := ["x", "y"] },
         { score := 5, payloadPath := "notes/b.md", payloadTags := ["x"] },
         { score := 3, payloadPath := "other/c.md", payloadTags := ["x"] }]) :=
  ObsFind.Indexer.search_filter_properties
    { minScore := 1, tags := ["x"], pathPrefix := "notes/" }
    [{ score := 2, payloadPath := "notes/a.md", payloadTags := ["x", "y"] },
     { score := 5, payloadPath := "notes/b.md", payloadTags := ["x"] },
     { score := 3, payloadPath := "other/c.md", payloadTags := ["x"] }]
    (by decide)

/-- Helper: the forward scan never moves backward. -/
theorem ObsFind.Markdown.scanWhile_ge (s : ObsFind.Markdown.Str) (p : Char → Bool) :
    ∀ fuel i, i ≤ ObsFind.Markdown.scanWhile s p fuel i := by
  intro fuel
  induction fuel with
  | zero => intro i; exact Nat.le_refl i
  | succ n ih =>
    intro i
    simp only [ObsFind.Markdown.scanWhile]
    cases hc : s.get? i with
    | some c =>
      dsimp only
      by_cases hp : p c = true
      · rw [if_pos hp]
        exact Nat.le_trans (Nat.le_succ i) (ih (i+1))
      · rw [if_neg hp]
    | none => exact Nat.le_refl i

/-- Helper: the forward scan stays within the string when started within
it. -/
theorem ObsFind.Markdown.scanWhile_le (s : ObsFind.Markdown.Str) (p : Char → Bool) :
    ∀ fuel i, i ≤ s.length → ObsFind.Markdown.scanWhile s p fuel i ≤ s.length := by
  intro fuel
  induction fuel with
  | zero => intro i h; exact h
  | succ n ih =>
    intro i h
    simp only [ObsFind.Markdown.scanWhile]
    cases hc : s.get? i with
    | some c =>
      have hi : i < s.length := by
        by_contra hge
        rw [List.get?_eq_none.mpr (by omega)] at hc
        cases hc
      dsimp only
      by_cases hp : p c = true
      · rw [if_pos hp]
        exact ih (i+1) hi
      · rw [if_neg hp]
        exact h
    | none => exact h

/-- Helper: a successful downward title search lands at or after the lower
bound, on an existing character. -/
theorem ObsFind.Markdown.searchTitleStart_some (s : ObsFind.Markdown.Str) (lo : Nat) :
    ∀ fuel j jv, ObsFind.Markdown.searchTitleStart s lo fuel j = some jv →
      lo ≤ jv ∧ jv < s.length := by
  intro fuel
  induction fuel with
  | zero => intro j jv h; cases h
  | succ n ih =>
    intro j jv h
    simp only [ObsFind.Markdown.searchTitleStart] at h
    split at h
    · cases h
    · next hlo =>
      cases hc : s.get? j with
      | some c =>
        rw [hc] at h
        dsimp only at h
        split at h
        · cases h
          constructor
          · omega
          · by_contra hge
            rw [List.get?_eq_none.mpr (by omega)] at hc
            cases hc
        · split at h
          · cases h
          · exact ih (j-1) jv h
      | none =>
        rw [hc] at h
        dsimp only at h
        split at h
        · cases h
        · exact ih (j-1) jv h

/-- Helper: a heading match starts at its probe position, has positive
width, and ends within the string. -/
theorem ObsFind.Markdown.tryHeaderMatch_some (s : ObsFind.Markdown.Str) (p : Nat)
    (m : ObsFind.Markdown.HeaderMatch) (h : ObsFind.Markdown.tryHeaderMatch s p = some m) :
    m.mStart = p ∧ p < m.mEnd ∧ m.mEnd ≤ s.length := by
  unfold ObsFind.Markdown.tryHeaderMatch at h
  split at h
  · cases hts : ObsFind.Markdown.headingTitleStart s (ObsFind.Markdown.hashRunEnd s p) with
    | some ts =>
      rw [hts] at h
      dsimp only at h
      cases h
      have hb := ObsFind.Markdown.searchTitleStart_some s
        (ObsFind.Markdown.hashRunEnd s p + 1) (s.length + 1)
        (min (ObsFind.Markdown.scanWhile s ObsFind.Markdown.isRegexSpace (s.length + 1)
          (ObsFind.Markdown.hashRunEnd s p)) (s.length - 1)) ts hts
      have hge := ObsFind.Markdown.scanWhile_ge s (fun c => c = '#') (s.length + 1) p
      have htge := ObsFind.Markdown.scanWhile_ge s (fun c => ¬ (c = '\n')) (s.length + 1) ts
      have htle := ObsFind.Markdown.scanWhile_le s (fun c => ¬ (c = '\n')) (s.length + 1) ts
        (by omega)
      refine ⟨rfl, ?_, ?_⟩
      · show p < ObsFind.Markdown.headingTitleEnd s ts
        unfold ObsFind.Markdown.headingTitleEnd
        unfold ObsFind.Markdown.hashRunEnd at hb
        omega
      · show ObsFind.Markdown.headingTitleEnd s ts ≤ s.length
        unfold ObsFind.Markdown.headingTitleEnd
        omega
    | none =>
      rw [hts] at h
      cases h
  · cases h

/-- Helper: the chain predicate weakens under a smaller cursor. -/
theorem ObsFind.Markdown.chainFrom_mono (s : ObsFind.Markdown.Str) :
    ∀ (l : List ObsFind.Markdown.HeaderMatch) (pos2 pos : Nat), pos2 ≤ pos →
      ObsFind.Markdown.chainFrom s pos l → ObsFind.Markdown.chainFrom s pos2 l := by
  intro l pos2 pos hle hc
  cases l with
  | nil => trivial
  | cons m rest =>
    obtain ⟨h1, h2, h3, h4⟩ := hc
    exact ⟨Nat.le_trans hle h1, h2, h3, h4⟩

/-- Helper: the heading scan produces a well-formed ordered match list. -/
theorem ObsFind.Markdown.findHeaderMatches_chain (s : ObsFind.Markdown.Str) :
    ∀ fuel pos, ObsFind.Markdown.chainFrom s pos (ObsFind.Markdown.findHeaderMatches s fuel pos) := by
  intro fuel
  induction fuel with
  | zero => intro pos; trivial
  | succ n ih =>
    intro pos
    simp only [ObsFind.Markdown.findHeaderMatches]
    split
    · trivial
    · split
      · cases hm : ObsFind.Markdown.tryHeaderMatch s pos with
        | some m =>
          dsimp only
          have hb := ObsFind.Markdown.tryHeaderMatch_some s pos m hm
          exact ⟨by omega, by omega, hb.2.2, ih m.mEnd⟩
        | none =>
          dsimp only
          exact ObsFind.Markdown.chainFrom_mono s _ pos (pos+1) (Nat.le_succ pos) (ih (pos+1))
      · exact ObsFind.Markdown.chainFrom_mono s _ pos (pos+1) (Nat.le_succ pos) (ih (pos+1))

/-- Helper: length of a Go slice within bounds. -/
theorem ObsFind.Markdown.slice_length (s : ObsFind.Markdown.Str) (a b : Nat)
    (hab : a ≤ b) (hb : b ≤ s.length) :
    (ObsFind.Markdown.slice s a b).length = b - a := by
  simp only [ObsFind.Markdown.slice, List.length_drop, List.length_take]
  omega

/-- Helper: the section-content fold from an arbitrary accumulator. -/
theorem ObsFind.Markdown.concatSections_fold (ss : List ObsFind.Markdown.Section) :
    ∀ acc : ObsFind.Markdown.Str,
      ss.foldl (fun acc sec => acc ++ sec.content) acc =
        acc ++ ObsFind.Markdown.concatSections ss := by
  induction ss with
  | nil => intro acc; simp [ObsFind.Markdown.concatSections]
  | cons sec rest ih =>
    intro acc
    simp only [ObsFind.Markdown.concatSections, List.foldl_cons, List.nil_append]
    rw [ih (acc ++ sec.content), ih sec.content, List.append_assoc]

/-- Helper: concatenation over a cons of sections. -/
theorem ObsFind.Markdown.concatSections_cons (sec : ObsFind.Markdown.Section)
    (ss : List ObsFind.Markdown.Section) :
    ObsFind.Markdown.concatSections (sec :: ss) =
      sec.content ++ ObsFind.Markdown.concatSections ss := by
  simp only [ObsFind.Markdown.concatSections, List.foldl_cons, List.nil_append]
  exact ObsFind.Markdown.concatSections_fold ss sec.content

/-- Helper: length accounting of the section contents built from a
well-formed match chain: together with the end of the first match and the
spans of the later matches they cover the whole input. -/
theorem ObsFind.Markdown.sections_concat_length (s : ObsFind.Markdown.Str) :
    ∀ (rest : List ObsFind.Markdown.HeaderMatch) (m : ObsFind.Markdown.HeaderMatch),
      ObsFind.Markdown.chainFrom s m.mEnd rest → m.mEnd ≤ s.length →
      (ObsFind.Markdown.concatSections
          (ObsFind.Markdown.sectionsFromMatches s (m :: rest))).length +
        m.mEnd + ObsFind.Markdown.spanSum rest = s.length := by
  intro rest
  induction rest with
  | nil =>
    intro m _ hle
    simp only [ObsFind.Markdown.sectionsFromMatches]
    rw [ObsFind.Markdown.concatSections_cons]
    simp only [ObsFind.Markdown.concatSections, List.foldl_nil, List.append_nil,
      ObsFind.Markdown.spanSum, List.map_nil, List.sum_nil]
    rw [ObsFind.Markdown.slice_length s m.mEnd s.length hle (Nat.le_refl _)]
    omega
  | cons m1 rest2 ih =>
    intro m hchain hle
    obtain ⟨h1, h2, h3, h4⟩ := hchain
    simp only [ObsFind.Markdown.sectionsFromMatches]
    rw [ObsFind.Markdown.concatSections_cons]
    have hih := ih m1 h4 h3
    simp only [ObsFind.Markdown.sectionsFromMatches] at hih
    rw [List.length_append]
    rw [ObsFind.Markdown.slice_length s m.mEnd m1.mStart h1 (by omega)]
    simp only [ObsFind.Markdown.spanSum, List.map_cons, List.sum_cons] at hih ⊢
    omega

/-- Helper: when the content has heading matches, the concatenation of the
section contents misses exactly the prefix through the first match's end
plus the spans of the later matches. -/
theorem ObsFind.Markdown.parseSections_concat_length (content : ObsFind.Markdown.Str)
    (m0 : ObsFind.Markdown.HeaderMatch) (rest : List ObsFind.Markdown.HeaderMatch)
    (hms : ObsFind.Markdown.headerMatches content = m0 :: rest) :
    (ObsFind.Markdown.concatSections (ObsFind.Markdown.parseSections content)).length +
      m0.mEnd + ObsFind.Markdown.spanSum rest = content.length := by
  have hchain := ObsFind.Markdown.findHeaderMatches_chain content (content.length + 1) 0
  rw [show ObsFind.Markdown.findHeaderMatches content (content.length + 1) 0 =
      ObsFind.Markdown.headerMatches content from rfl, hms] at hchain
  obtain ⟨h0, hlt, hle, hrest⟩ := hchain
  have hkey := ObsFind.Markdown.sections_concat_length content rest m0 hrest hle
  unfold ObsFind.Markdown.parseSections
  rw [hms]
  simp only [ObsFind.Markdown.sectionsFromMatches, List.isEmpty_cons, Bool.false_eq_true,
    if_false]
  simp only [ObsFind.Markdown.sectionsFromMatches] at hkey
  exact hkey

/-- C2 corrected: the concatenation of the section contents equals the
document body byte-for-byte exactly when the body has no ATX heading match;
when headings exist, the bytes before the end of the first heading match
and the matched span of every later heading are the ones missing from the
concatenation. -/
theorem ObsFind.Markdown.parseSections_coverage (content : ObsFind.Markdown.Str) :
    (ObsFind.Markdown.concatSections (ObsFind.Markdown.parseSections content) = content ↔
      ObsFind.Markdown.headerMatches content = []) ∧
    (∀ m0 rest, ObsFind.Markdown.headerMatches content = m0 :: rest →
      (ObsFind.Markdown.concatSections (ObsFind.Markdown.parseSections content)).length +
        m0.mEnd + ObsFind.Markdown.spanSum rest = content.length) := by
  constructor
  · constructor
    · intro heq
      cases hms : ObsFind.Markdown.headerMatches content with
      | nil => rfl
      | cons m0 rest =>
        exfalso
        have hkey := ObsFind.Markdown.parseSections_concat_length content m0 rest hms
        have hchain := ObsFind.Markdown.findHeaderMatches_chain content (content.length + 1) 0
        rw [show ObsFind.Markdown.findHeaderMatches content (content.length + 1) 0 =
            ObsFind.Markdown.headerMatches content from rfl, hms] at hchain
        obtain ⟨_, hlt, _, _⟩ := hchain
        have hlen : (ObsFind.Markdown.concatSections
            (ObsFind.Markdown.parseSections content)).length = content.length := by
          rw [heq]
        omega
    · intro hms
      unfold ObsFind.Markdown.parseSections
      rw [hms]
      simp only [ObsFind.Markdown.sectionsFromMatches, List.isEmpty_nil, if_pos]
      rw [ObsFind.Markdown.concatSections_cons]
      simp [ObsFind.Markdown.concatSections]
  · exact fun m0 rest hms =>
      ObsFind.Markdown.parseSections_concat_length content m0 rest hms

/-- Witness for C2 corrected: the body "# A\nx" has one heading match
ending at offset 3 and no later matches; the concatenation has length 2 =
5 - 3. -/
theorem ObsFind.Markdown.parseSections_coverage_witness :
    (ObsFind.Markdown.concatSections
        (ObsFind.Markdown.parseSections "# A\nx".data)).length +
      (3 : Nat) + ObsFind.Markdown.spanSum [] = ("# A\nx".data).length :=
  (ObsFind.Markdown.parseSections_coverage "# A\nx".data).2
    { mStart := 0, mEnd := 3, level := 1, titleStart := 2, titleEnd := 3 } [] (by decide)

/-- C2 counterexample: for the body "# A\nx" the concatenation of the
section contents is "\nx", which is not the body byte-for-byte: the heading
line's matched bytes are dropped. -/
theorem ObsFind.Markdown.parseSections_coverage_counterexample :
    ObsFind.Markdown.concatSections (ObsFind.Markdown.parseSections "# A\nx".data) =
      "\nx".data ∧
    ObsFind.Markdown.concatSections (ObsFind.Markdown.parseSections "# A\nx".data) ≠
      "# A\nx".data := by
  refine ⟨by decide, by decide⟩

/-- C9: Markdown parsing is total: for every input, Parse returns a
document and a nil error, because extractFrontmatter always returns a nil
error (content without a leading frontmatter fence comes back unchanged
with no frontmatter), making Parse's error branch unreachable. -/
theorem ObsFind.Markdown.parse_total (content : ObsFind.Markdown.Str) :
    (∃ v, ObsFind.Markdown.extractFrontmatter content = Except.ok v) ∧
    (∃ doc, ObsFind.Markdown.parse content = Except.ok doc) ∧
    (ObsFind.Markdown.frontmatterMatch content = none →
      ObsFind.Markdown.extractFrontmatter content = Except.ok (none, content)) := by
  refine ⟨⟨_, rfl⟩, ⟨_, rfl⟩, ?_⟩
  intro hmatch
  unfold ObsFind.Markdown.extractFrontmatter ObsFind.Markdown.extractFrontmatterData
  rw [hmatch]

/-- Witness for C9: content with no frontmatter fence comes back unchanged
with no frontmatter and a nil error. -/
theorem ObsFind.Markdown.parse_total_witness :
    ObsFind.Markdown.extractFrontmatter "plain".data =
      Except.ok (none, "plain".data) :=
  (ObsFind.Markdown.parse_total "plain".data).2.2 (by decide)

/-- C1: the chunk identifier produced during indexing equals the
SHA1-name-based UUID of the fixed namespace UUID and the string
vaultName + ":" + relativePath + "#" + chunkIndex; it is a function of
these three inputs alone (no clock or random state appears in its
computation), so equal inputs give byte-identical ids; concretely, the id
for ("v", "p", 3) is the UUID the reference library computes for the name
"v:p#3" under the fixed namespace. -/
theorem ObsFind.Indexer.chunkPointId_spec :
    (∀ (v r : String) (i : Nat),
      ObsFind.Indexer.chunkPointId v r i = ObsFind.Indexer.specChunkUUID v r i) ∧
    (∀ (v1 v2 r1 r2 : String) (i1 i2 : Nat), v1 = v2 → r1 = r2 → i1 = i2 →
      ObsFind.Indexer.chunkPointId v1 r1 i1 = ObsFind.Indexer.chunkPointId v2 r2 i2) ∧
    ObsFind.Indexer.chunkPointId "v" "p" 3 = "b03cea52-2731-5cd5-b9d5-59f5bb412920" := by
  refine ⟨fun v r i => rfl, fun v1 v2 r1 r2 i1 i2 hv hr hi => by rw [hv, hr, hi], ?_⟩
  set_option maxRecDepth 10000 in decide

/-- Witness for C1: the determinism clause applied at equal concrete
inputs. -/
theorem ObsFind.Indexer.chunkPointId_spec_witness :
    ObsFind.Indexer.chunkPointId "a" "b.md" 0 = ObsFind.Indexer.chunkPointId "a" "b.md" 0 :=
  ObsFind.Indexer.chunkPointId_spec.2.1 "a" "a" "b.md" "b.md" 0 0 rfl rfl rfl
